import Mathlib

/-!
Verification of the to-do list application's state-management core
(`src/viewmodel/useTodoViewModel.js`, `src/model/TodoModel.js` as shown in
`AUTH0_TUTORIAL.md`, `src/service/TodoService.js`).

The repository contains two variants of the ViewModel: a localStorage-backed
one and a Supabase-backed ("remote") one.  Both are embedded below where a
claim needs them: namespace `RemoteVM` holds the remote variant, namespace
`LocalVM` the local one.  JavaScript objects become Lean structures, the two
React state lists (`todos`, `archivedTodos`) become a `StoreState` record,
and each ViewModel operation becomes a state-transition function.  Gateway
(Supabase) calls are modelled by passing their outcome as an argument; the
transition functions use that outcome exactly where the JavaScript code
does.
-/

namespace TodoApp

/-- A to-do record, as produced by the `TodoModel` constructor:
`id`, `text`, `completed`, `dueDate`. -/
structure Todo where
  id : Nat
  text : String
  completed : Bool
  dueDate : String
deriving DecidableEq, Repr

/-- Model of JavaScript's `String.prototype.trim` (for the whitespace
characters the application can encounter): strips leading and trailing
whitespace from the character sequence. -/
def jsTrim (s : String) : String :=
  String.mk (((s.toList.dropWhile Char.isWhitespace).reverse.dropWhile
    Char.isWhitespace).reverse)

namespace TodoModel

/-- The `TodoModel` constructor: `constructor(text, dueDate = '')` sets
`this.id = Date.now()`, `this.text = text`, `this.completed = false`,
`this.dueDate = dueDate`.  The nondeterministic `Date.now()` is passed in as
`id`; an omitted `dueDate` argument is `none` and defaults to `""`. -/
def build (id : Nat) (text : String) (dueDate : Option String) : Todo :=
  { id := id, text := text, completed := false, dueDate := dueDate.getD "" }

/-- `TodoModel.create(text, dueDate)`: throws `'Todo text cannot be empty'`
when `!text || text.trim() === ''`, otherwise returns the constructed
record. -/
def create (id : Nat) (text : String) (dueDate : Option String) :
    Except String Todo :=
  if text = "" ∨ jsTrim text = "" then .error "Todo text cannot be empty"
  else .ok (build id text dueDate)

end TodoModel

/-- The ViewModel's state: the two React state lists `todos` (active
partition) and `archivedTodos` (archived partition). -/
structure StoreState where
  todos : List Todo
  archivedTodos : List Todo
deriving DecidableEq, Repr

/-- Ids of the active partition. -/
def StoreState.todoIds (s : StoreState) : List Nat :=
  s.todos.map (·.id)

/-- Ids of the archived partition. -/
def StoreState.archivedIds (s : StoreState) : List Nat :=
  s.archivedTodos.map (·.id)

/-- Partial record of updatable fields, as merged by
`editTodo(id, updatedFields)` via object spread (the views pass `text` and
`dueDate`; `completed` is included for generality). -/
structure TodoFields where
  text : Option String
  completed : Option Bool
  dueDate : Option String
deriving DecidableEq, Repr

/-- JavaScript object spread `{ ...todo, ...updatedFields }`: a field present
in `updatedFields` overrides the record's field. -/
def mergeFields (t : Todo) (f : TodoFields) : Todo :=
  { t with
    text := f.text.getD t.text
    completed := f.completed.getD t.completed
    dueDate := f.dueDate.getD t.dueDate }

/-- A row of the Supabase `todos` table: columns `id, text, completed,
due_date, user_id` (plus `created_at`, represented by the row's position in
the table list, which is kept in creation order). -/
structure Row where
  id : Nat
  text : String
  completed : Bool
  dueDate : String
  userId : String
deriving DecidableEq, Repr

/-- Mapping a fetched Supabase row to a `TodoModel` instance, as done in
`TodoService.getAllTodos`. -/
def rowToTodo (r : Row) : Todo :=
  { id := r.id, text := r.text, completed := r.completed, dueDate := r.dueDate }

namespace RemoteVM

/-- `TodoService.getAllTodos` with Supabase row-level security: returns the
rows whose `user_id` equals the authenticated caller, in `created_at`
order (the table list is kept in creation order), mapped to records. -/
def getAllTodos (db : List Row) (owner : String) : List Todo :=
  (db.filter fun r => r.userId == owner).map rowToTodo

/-- The `loadTodos` effect of the remote ViewModel: awaits
`TodoService.getAllTodos()`, whose outcome is the argument `fetchOk`.  On
success it replaces both state lists, putting the non-completed fetched
records in `todos` and the completed ones in `archivedTodos` (the previous
state is discarded entirely).  On failure the catch block only logs
`"Failed to fetch todos"`: neither setter runs, so the previous state `s`
— both lists — stays in place. -/
def loadTodos (s : StoreState) (db : List Row) (owner : String)
    (fetchOk : Bool) : StoreState :=
  if fetchOk then
    let fetched := getAllTodos db owner
    { todos := fetched.filter fun t => !t.completed
      archivedTodos := fetched.filter fun t => t.completed }
  else s

/-- Remote `addTodo(text, dueDate)`: builds the record via
`TodoModel.create` (on a validation error the catch block only logs, leaving
state unchanged), optimistically appends it to `todos`, then awaits the
gateway insert, whose outcome is the argument `insertResult`.  On success
the optimistic entry is replaced by the saved record; on failure the catch
block only logs — the optimistic entry is NOT removed.  Returns the new
state together with the reported (logged) error message, if any. -/
def addTodo (s : StoreState) (text : String) (dueDate : Option String)
    (newId : Nat) (insertResult : Except String Todo) :
    StoreState × Option String :=
  match TodoModel.create newId text dueDate with
  | .error msg => (s, some msg)
  | .ok newTodo =>
    let s₁ : StoreState := { s with todos := s.todos ++ [newTodo] }
    match insertResult with
    | .error msg => (s₁, some msg)
    | .ok saved =>
      ({ s₁ with todos := s₁.todos.map fun t => if t = newTodo then saved else t },
        none)

/-- Remote `toggleComplete(id)`: finds the record in `todos`, else in
`archivedTodos`; if absent, does nothing.  Flips `completed` and moves the
record: when the new flag is true, it is removed from `todos` and appended
to `archivedTodos`; otherwise removed from `archivedTodos` and appended to
`todos`.  The gateway update outcome `updateOk` is awaited afterwards but
its failure is only logged (the catch block does not revert), so the
resulting state does not depend on it. -/
def toggleComplete (s : StoreState) (id : Nat) (_updateOk : Bool) : StoreState :=
  match (s.todos.find? fun t => t.id == id).orElse
      (fun _ => s.archivedTodos.find? fun t => t.id == id) with
  | none => s
  | some todo =>
    let updatedTodo : Todo := { todo with completed := !todo.completed }
    if updatedTodo.completed then
      { todos := s.todos.filter fun t => t.id != id
        archivedTodos := s.archivedTodos ++ [updatedTodo] }
    else
      { todos := s.todos ++ [updatedTodo]
        archivedTodos := s.archivedTodos.filter fun t => t.id != id }

/-- Remote `editTodo(id, updatedFields)`: finds the record in `todos` (only
the active partition); merges the fields; replaces every entry with that id
by the merged record.  Gateway update failure is only logged. -/
def editTodo (s : StoreState) (id : Nat) (fields : TodoFields)
    (_updateOk : Bool) : StoreState :=
  match s.todos.find? fun t => t.id == id with
  | none => s
  | some todo =>
    let updatedTodo := mergeFields todo fields
    { s with todos := s.todos.map fun t => if t.id == id then updatedTodo else t }

/-- Remote `deleteTodo(id)`: removes the record from `todos`; gateway delete
failure is only logged (best-effort delete). -/
def deleteTodo (s : StoreState) (id : Nat) (_deleteOk : Bool) : StoreState :=
  { s with todos := s.todos.filter fun t => t.id != id }

/-- Remote `archiveCompleted()`: a no-op placeholder — in the Supabase
mapping "archived" is synonymous with `completed = true` and
`toggleComplete` already moves records. -/
def archiveCompleted (s : StoreState) : StoreState :=
  s

/-- Remote `unarchiveTodo(id)`: finds the record in `archivedTodos`; if
absent, does nothing.  Removes it from `archivedTodos` and appends it to
`todos` with `completed` forced to `false`.  The gateway update outcome
`updateOk` is awaited afterwards but its failure is only logged (no
revert), so the resulting state does not depend on it. -/
def unarchiveTodo (s : StoreState) (id : Nat) (_updateOk : Bool) : StoreState :=
  match s.archivedTodos.find? fun t => t.id == id with
  | none => s
  | some todo =>
    { todos := s.todos ++ [{ todo with completed := false }]
      archivedTodos := s.archivedTodos.filter fun t => t.id != id }

/-- Remote `deleteArchivedTodo(id)`: removes the record from
`archivedTodos`; gateway delete failure is only logged. -/
def deleteArchivedTodo (s : StoreState) (id : Nat) (_deleteOk : Bool) :
    StoreState :=
  { s with archivedTodos := s.archivedTodos.filter fun t => t.id != id }

/-- One user-triggered store operation of the remote ViewModel, carrying the
environment inputs it consumes: the generated id and gateway outcome for
`add`, the gateway outcome flags for the others, and the visible table
contents for a (re-)load. -/
inductive Op where
  | add (text : String) (dueDate : Option String) (newId : Nat)
      (insertResult : Except String Todo)
  | toggle (id : Nat) (updateOk : Bool)
  | edit (id : Nat) (fields : TodoFields) (updateOk : Bool)
  | del (id : Nat) (deleteOk : Bool)
  | archiveAll
  | unarchive (id : Nat) (updateOk : Bool)
  | delArchived (id : Nat) (deleteOk : Bool)
  | load (db : List Row) (owner : String) (fetchOk : Bool)
deriving Repr

/-- Applying one operation to the store state. -/
def applyOp (s : StoreState) : Op → StoreState
  | .add text dueDate newId insertResult =>
    (addTodo s text dueDate newId insertResult).1
  | .toggle id ok => toggleComplete s id ok
  | .edit id fields ok => editTodo s id fields ok
  | .del id ok => deleteTodo s id ok
  | .archiveAll => archiveCompleted s
  | .unarchive id ok => unarchiveTodo s id ok
  | .delArchived id ok => deleteArchivedTodo s id ok
  | .load db owner fetchOk => loadTodos s db owner fetchOk

/-- Environment-correctness of an operation in a state: the id generated by
`Date.now()` for an `add` and the canonical id returned by the gateway are
fresh with respect to the archived partition, and a successfully loaded
table has primary-key-unique ids.  These express that the clock and the
database behave as the application assumes; every other operation — and a
failed load, which leaves the state untouched — is unconstrained. -/
def OpOK (s : StoreState) : Op → Prop
  | .add _ _ newId insertResult =>
    newId ∉ s.archivedIds ∧
      match insertResult with
      | .ok saved => saved.id ∉ s.archivedIds
      | .error _ => True
  | .load db _ fetchOk => fetchOk = true → (db.map Row.id).Nodup
  | _ => True

/-- States reachable from the empty store by environment-correct
operations. -/
inductive Reachable : StoreState → Prop where
  | init : Reachable ⟨[], []⟩
  | step {s : StoreState} {op : Op} : Reachable s → OpOK s op →
      Reachable (applyOp s op)

end RemoteVM

namespace LocalVM

/-- Local-storage `archiveCompleted()`: keeps the incomplete records in
`todos` and appends the completed ones after the existing archived
records. -/
def archiveCompleted (s : StoreState) : StoreState :=
  { todos := s.todos.filter fun t => !t.completed
    archivedTodos := s.archivedTodos ++ s.todos.filter fun t => t.completed }

end LocalVM

/-- A store state is partition-consistent when active records are all
incomplete, archived records are all completed, and no id repeats across
the union of the two partitions.  This is the state discipline the remote
ViewModel's own loading and moving operations establish. -/
def Consistent (s : StoreState) : Prop :=
  (∀ t ∈ s.todos, t.completed = false) ∧
    (∀ t ∈ s.archivedTodos, t.completed = true) ∧
    (s.todoIds ++ s.archivedIds).Nodup

/-- The two partitions of a state hold no common id. -/
def PartitionsDisjoint (s : StoreState) : Prop :=
  ∀ i ∈ s.todoIds, i ∉ s.archivedIds

instance (s : StoreState) : Decidable (Consistent s) := by
  unfold Consistent
  infer_instance

instance (s : StoreState) : Decidable (PartitionsDisjoint s) := by
  unfold PartitionsDisjoint
  infer_instance

/-- A record list with pairwise-distinct ids is searched by id to the given
member. -/
theorem find?_id_of_mem {l : List Todo} {t : Todo} (hmem : t ∈ l)
    (hnodup : (l.map Todo.id).Nodup) :
    l.find? (fun x => x.id == t.id) = some t := by
  induction l with
  | nil => cases hmem
  | cons a l ih =>
    simp only [List.map_cons, List.nodup_cons] at hnodup
    rcases List.mem_cons.mp hmem with rfl | hmem'
    · exact List.find?_cons_of_pos _ (beq_self_eq_true _)
    · have hne : ¬ (a.id == t.id) = true := by
        simp only [beq_iff_eq]
        intro he
        exact hnodup.1 (he ▸ List.mem_map_of_mem Todo.id hmem')
      exact (@List.find?_cons_of_neg Todo (fun x => x.id == t.id) a l hne).trans
        (ih hmem' hnodup.2)

/-- Searching a record list for an id that none of its members carries
finds nothing. -/
theorem find?_id_of_not_mem {l : List Todo} {i : Nat}
    (h : i ∉ l.map Todo.id) :
    l.find? (fun x => x.id == i) = none := by
  refine List.find?_eq_none.mpr fun x hx hbeq => ?_
  exact h ((beq_iff_eq.mp hbeq) ▸ List.mem_map_of_mem Todo.id hx)

/-- Filtering out an id that no member carries leaves the list unchanged. -/
theorem filter_id_ne_of_not_mem {l : List Todo} {i : Nat}
    (h : i ∉ l.map Todo.id) :
    l.filter (fun x => x.id != i) = l := by
  refine List.filter_eq_self.mpr fun x hx => ?_
  refine bne_iff_ne.mpr fun he => ?_
  exact h (he ▸ List.mem_map_of_mem Todo.id hx)

/-- After filtering out an id, that id is gone from the list's ids. -/
theorem id_not_mem_map_filter (l : List Todo) (i : Nat) :
    i ∉ (l.filter fun x => x.id != i).map Todo.id := by
  intro hmem
  obtain ⟨x, hx, hid⟩ := List.mem_map.mp hmem
  have := (List.mem_filter.mp hx).2
  rw [hid] at this
  simp at this

/-- Searching a list already filtered of an id for that id finds nothing. -/
theorem find?_filter_ne (l : List Todo) (i : Nat) :
    (l.filter fun x => x.id != i).find? (fun x => x.id == i) = none :=
  find?_id_of_not_mem (id_not_mem_map_filter l i)

/-- Remote toggle of a record found in the active partition: the record is
removed from `todos` and appended to `archivedTodos` with `completed`
flipped to `true`. -/
theorem toggleComplete_of_mem_todos {s : StoreState} {t : Todo} (ok : Bool)
    (hact : ∀ x ∈ s.todos, x.completed = false)
    (hnodupT : s.todoIds.Nodup) (hmem : t ∈ s.todos) :
    RemoteVM.toggleComplete s t.id ok =
      { todos := s.todos.filter fun x => x.id != t.id
        archivedTodos := s.archivedTodos ++ [{ t with completed := true }] } := by
  have hfind : s.todos.find? (fun x => x.id == t.id) = some t :=
    find?_id_of_mem hmem hnodupT
  have hc : t.completed = false := hact t hmem
  unfold RemoteVM.toggleComplete
  rw [hfind]
  simp [Option.orElse, hc]

/-- Remote toggle of a record found in the archived partition: the record
is removed from `archivedTodos` and appended to `todos` with `completed`
flipped to `false`. -/
theorem toggleComplete_of_mem_archived {s : StoreState} {t : Todo} (ok : Bool)
    (harch : ∀ x ∈ s.archivedTodos, x.completed = true)
    (hnodupA : s.archivedIds.Nodup)
    (hid : t.id ∉ s.todoIds) (hmem : t ∈ s.archivedTodos) :
    RemoteVM.toggleComplete s t.id ok =
      { todos := s.todos ++ [{ t with completed := false }]
        archivedTodos := s.archivedTodos.filter fun x => x.id != t.id } := by
  have hfindT : s.todos.find? (fun x => x.id == t.id) = none :=
    find?_id_of_not_mem hid
  have hfindA : s.archivedTodos.find? (fun x => x.id == t.id) = some t :=
    find?_id_of_mem hmem hnodupA
  have hc : t.completed = true := harch t hmem
  unfold RemoteVM.toggleComplete
  rw [hfindT, hfindA]
  simp [Option.orElse, hc]

/-- Toggling an active record twice lands it back in `todos`, at the end,
with its original fields; the archived partition is restored exactly. -/
theorem toggle_toggle_of_mem_todos {s : StoreState} {t : Todo} (ok₁ ok₂ : Bool)
    (hc : Consistent s) (hmem : t ∈ s.todos) :
    RemoteVM.toggleComplete (RemoteVM.toggleComplete s t.id ok₁) t.id ok₂ =
      { todos := (s.todos.filter fun x => x.id != t.id) ++ [t]
        archivedTodos := s.archivedTodos } := by
  obtain ⟨hact, harch, hnodup⟩ := hc
  rw [List.nodup_append] at hnodup
  obtain ⟨hnodupT, hnodupA, hdisj⟩ := hnodup
  obtain ⟨i, x, c, d⟩ := t
  have hidA : i ∉ s.archivedIds := fun h => hdisj (List.mem_map_of_mem _ hmem) h
  have hcomp : c = false := hact _ hmem
  subst hcomp
  rw [toggleComplete_of_mem_todos ok₁ hact hnodupT hmem]
  unfold RemoteVM.toggleComplete
  simp only [find?_filter_ne, List.find?_append, find?_id_of_not_mem hidA,
    List.find?_singleton, Option.orElse, Option.none_or, List.filter_append]
  simp [filter_id_ne_of_not_mem hidA]

/-- Toggling an archived record twice lands it back in `archivedTodos`, at
the end, with its original fields; the active partition is restored
exactly. -/
theorem toggle_toggle_of_mem_archived {s : StoreState} {t : Todo} (ok₁ ok₂ : Bool)
    (hc : Consistent s) (hmem : t ∈ s.archivedTodos) :
    RemoteVM.toggleComplete (RemoteVM.toggleComplete s t.id ok₁) t.id ok₂ =
      { todos := s.todos
        archivedTodos := (s.archivedTodos.filter fun x => x.id != t.id) ++ [t] } := by
  obtain ⟨hact, harch, hnodup⟩ := hc
  rw [List.nodup_append] at hnodup
  obtain ⟨hnodupT, hnodupA, hdisj⟩ := hnodup
  obtain ⟨i, x, c, d⟩ := t
  have hidT : i ∉ s.todoIds := fun h => hdisj h (List.mem_map_of_mem _ hmem)
  have hcomp : c = true := harch _ hmem
  subst hcomp
  rw [toggleComplete_of_mem_archived ok₁ harch hnodupA hidT hmem]
  unfold RemoteVM.toggleComplete
  simp only [find?_filter_ne, List.find?_append, find?_id_of_not_mem hidT,
    List.find?_singleton, Option.orElse, Option.none_or, List.filter_append]
  simp [filter_id_ne_of_not_mem hidT]

/-- C2: for every record resident in either partition of a
partition-consistent store, remote `toggleComplete(id)` flips that record's
`completed` flag and moves it to the opposite partition; the operation is a
single state transition (the embedding of the one batched React update, so
no intermediate state is observable) and afterwards the record's id is in
exactly one partition — never neither, never both. -/
theorem toggleComplete_flips_and_moves (s : StoreState) (t : Todo) (ok : Bool)
    (hc : Consistent s) (hmem : t ∈ s.todos ∨ t ∈ s.archivedTodos) :
    ((t ∈ s.todos →
        { t with completed := !t.completed } ∈
            (RemoteVM.toggleComplete s t.id ok).archivedTodos ∧
          t.id ∉ (RemoteVM.toggleComplete s t.id ok).todoIds) ∧
      (t ∈ s.archivedTodos →
        { t with completed := !t.completed } ∈
            (RemoteVM.toggleComplete s t.id ok).todos ∧
          t.id ∉ (RemoteVM.toggleComplete s t.id ok).archivedIds)) ∧
    ((t.id ∈ (RemoteVM.toggleComplete s t.id ok).todoIds ∨
        t.id ∈ (RemoteVM.toggleComplete s t.id ok).archivedIds) ∧
      ¬(t.id ∈ (RemoteVM.toggleComplete s t.id ok).todoIds ∧
        t.id ∈ (RemoteVM.toggleComplete s t.id ok).archivedIds)) := by
  obtain ⟨hact, harch, hnodup⟩ := hc
  rw [List.nodup_append] at hnodup
  obtain ⟨hnodupT, hnodupA, hdisj⟩ := hnodup
  rcases hmem with hmem | hmem
  · have hidA : t.id ∉ s.archivedIds := fun h => hdisj (List.mem_map_of_mem _ hmem) h
    have hcomp : t.completed = false := hact _ hmem
    rw [toggleComplete_of_mem_todos ok hact hnodupT hmem]
    refine ⟨⟨fun _ => ⟨?_, ?_⟩, fun hmem' => ?_⟩, Or.inr ?_, fun hand => ?_⟩
    · simp [hcomp]
    · exact id_not_mem_map_filter s.todos t.id
    · exact absurd (List.mem_map_of_mem Todo.id hmem') hidA
    · simp [StoreState.archivedIds]
    · exact (id_not_mem_map_filter s.todos t.id) hand.1
  · have hidT : t.id ∉ s.todoIds := fun h => hdisj h (List.mem_map_of_mem _ hmem)
    have hcomp : t.completed = true := harch _ hmem
    rw [toggleComplete_of_mem_archived ok harch hnodupA hidT hmem]
    refine ⟨⟨fun hmem' => ?_, fun _ => ⟨?_, ?_⟩⟩, Or.inl ?_, fun hand => ?_⟩
    · exact absurd (List.mem_map_of_mem Todo.id hmem') hidT
    · simp [hcomp]
    · exact id_not_mem_map_filter s.archivedTodos t.id
    · simp [StoreState.todoIds]
    · exact (id_not_mem_map_filter s.archivedTodos t.id) hand.2

/-- Witness for C2 at a concrete consistent store: toggling the active
record with id 1 lands its flipped copy in the archived partition and
removes id 1 from the active one. -/
theorem toggleComplete_flips_and_moves_witness :
    Consistent ⟨[⟨1, "a", false, ""⟩, ⟨2, "b", false, ""⟩], [⟨3, "c", true, ""⟩]⟩ ∧
      (⟨1, "a", true, ""⟩ : Todo) ∈
        (RemoteVM.toggleComplete
          ⟨[⟨1, "a", false, ""⟩, ⟨2, "b", false, ""⟩], [⟨3, "c", true, ""⟩]⟩
          1 true).archivedTodos ∧
      (1 : Nat) ∉
        (RemoteVM.toggleComplete
          ⟨[⟨1, "a", false, ""⟩, ⟨2, "b", false, ""⟩], [⟨3, "c", true, ""⟩]⟩
          1 true).todoIds :=
  ⟨by decide,
    ((toggleComplete_flips_and_moves _ ⟨1, "a", false, ""⟩ true (by decide)
      (Or.inl (by decide))).1.1 (by decide)).1,
    ((toggleComplete_flips_and_moves _ ⟨1, "a", false, ""⟩ true (by decide)
      (Or.inl (by decide))).1.1 (by decide)).2⟩

/-- C6: for every record resident in a partition-consistent store, calling
remote `toggleComplete(id)` twice (both gateway updates succeeding, hence
`true` flags) returns the record — with its original `completed` value —
to its original partition, and restores the other partition exactly. -/
theorem toggleComplete_round_trip (s : StoreState) (t : Todo)
    (hc : Consistent s) :
    (t ∈ s.todos →
      t ∈ (RemoteVM.toggleComplete (RemoteVM.toggleComplete s t.id true) t.id
            true).todos ∧
        (RemoteVM.toggleComplete (RemoteVM.toggleComplete s t.id true) t.id
            true).archivedTodos = s.archivedTodos) ∧
    (t ∈ s.archivedTodos →
      t ∈ (RemoteVM.toggleComplete (RemoteVM.toggleComplete s t.id true) t.id
            true).archivedTodos ∧
        (RemoteVM.toggleComplete (RemoteVM.toggleComplete s t.id true) t.id
            true).todos = s.todos) := by
  constructor
  · intro hmem
    rw [toggle_toggle_of_mem_todos true true hc hmem]
    simp
  · intro hmem
    rw [toggle_toggle_of_mem_archived true true hc hmem]
    simp

/-- Witness for C6 at a concrete consistent store: double-toggling the
active record with id 1 leaves it active with `completed = false` and the
archived partition untouched. -/
theorem toggleComplete_round_trip_witness :
    Consistent ⟨[⟨1, "a", false, "d1"⟩], [⟨3, "c", true, ""⟩]⟩ ∧
      (⟨1, "a", false, "d1"⟩ : Todo) ∈
        (RemoteVM.toggleComplete
          (RemoteVM.toggleComplete ⟨[⟨1, "a", false, "d1"⟩], [⟨3, "c", true, ""⟩]⟩
            1 true) 1 true).todos ∧
      (RemoteVM.toggleComplete
          (RemoteVM.toggleComplete ⟨[⟨1, "a", false, "d1"⟩], [⟨3, "c", true, ""⟩]⟩
            1 true) 1 true).archivedTodos = [⟨3, "c", true, ""⟩] :=
  ⟨by decide,
    ((toggleComplete_round_trip _ ⟨1, "a", false, "d1"⟩ (by decide)).1 (by decide)).1,
    ((toggleComplete_round_trip _ ⟨1, "a", false, "d1"⟩ (by decide)).1 (by decide)).2⟩

/-- C9: remote `toggleComplete` appends the toggled record at the end of
the destination partition, so after a double toggle the record is the last
element of its original partition (its position is not preserved); this
holds for any record of a partition-consistent store, in particular one
that was not last. -/
theorem toggleComplete_appends_at_end (s : StoreState) (t : Todo) (ok₁ ok₂ : Bool)
    (hc : Consistent s) :
    (t ∈ s.todos →
      (RemoteVM.toggleComplete s t.id ok₁).archivedTodos.getLast? =
          some { t with completed := true } ∧
        (RemoteVM.toggleComplete (RemoteVM.toggleComplete s t.id ok₁) t.id
            ok₂).todos.getLast? = some t) ∧
    (t ∈ s.archivedTodos →
      (RemoteVM.toggleComplete s t.id ok₁).todos.getLast? =
          some { t with completed := false } ∧
        (RemoteVM.toggleComplete (RemoteVM.toggleComplete s t.id ok₁) t.id
            ok₂).archivedTodos.getLast? = some t) := by
  obtain ⟨hact, harch, hnodup⟩ := id hc
  rw [List.nodup_append] at hnodup
  constructor
  · intro hmem
    refine ⟨?_, ?_⟩
    · rw [toggleComplete_of_mem_todos ok₁ hact hnodup.1 hmem]
      exact List.getLast?_concat _
    · rw [toggle_toggle_of_mem_todos ok₁ ok₂ hc hmem]
      exact List.getLast?_concat _
  · intro hmem
    have hidT : t.id ∉ s.todoIds := fun h => hnodup.2.2 h (List.mem_map_of_mem _ hmem)
    refine ⟨?_, ?_⟩
    · rw [toggleComplete_of_mem_archived ok₁ harch hnodup.2.1 hidT hmem]
      exact List.getLast?_concat _
    · rw [toggle_toggle_of_mem_archived ok₁ ok₂ hc hmem]
      exact List.getLast?_concat _

/-- Witness for C9 at a concrete consistent store in which the toggled
record (id 1) is NOT the last active record: after the first toggle it is
the last archived record, and after the round trip it is the last active
record. -/
theorem toggleComplete_appends_at_end_witness :
    Consistent ⟨[⟨1, "a", false, ""⟩, ⟨2, "b", false, ""⟩], []⟩ ∧
      (RemoteVM.toggleComplete ⟨[⟨1, "a", false, ""⟩, ⟨2, "b", false, ""⟩], []⟩
          1 true).archivedTodos.getLast? = some ⟨1, "a", true, ""⟩ ∧
      (RemoteVM.toggleComplete
          (RemoteVM.toggleComplete ⟨[⟨1, "a", false, ""⟩, ⟨2, "b", false, ""⟩], []⟩
            1 true) 1 true).todos.getLast? = some ⟨1, "a", false, ""⟩ :=
  ⟨by decide,
    ((toggleComplete_appends_at_end _ ⟨1, "a", false, ""⟩ true true (by decide)).1
      (by decide)).1,
    ((toggleComplete_appends_at_end _ ⟨1, "a", false, ""⟩ true true (by decide)).1
      (by decide)).2⟩

end TodoApp

namespace TodoApp

theorem todoIds_mk (a b : List Todo) :
    StoreState.todoIds ⟨a, b⟩ = a.map Todo.id := rfl

theorem archivedIds_mk (a b : List Todo) :
    StoreState.archivedIds ⟨a, b⟩ = b.map Todo.id := rfl

/-- Moving a record out of the active list into the end of the archived
list preserves partition disjointness, provided the moved record carries
the id being filtered out. -/
theorem disjoint_move_to_archived {s : StoreState} {u : Todo} {i : Nat}
    (hd : PartitionsDisjoint s) (hu : u.id = i) :
    PartitionsDisjoint ⟨s.todos.filter fun x => x.id != i, s.archivedTodos ++ [u]⟩ := by
  intro j hj
  rw [todoIds_mk] at hj
  obtain ⟨x, hx, rfl⟩ := List.mem_map.mp hj
  obtain ⟨hxl, hxne⟩ := List.mem_filter.mp hx
  have hne : x.id ≠ i := bne_iff_ne.mp hxne
  rw [archivedIds_mk]
  simp only [List.map_append, List.mem_append, List.map_cons, List.map_nil,
    List.mem_singleton, List.mem_cons, List.not_mem_nil, or_false]
  rintro (h | h)
  · exact hd _ (List.mem_map_of_mem _ hxl) h
  · exact hne (h.trans hu)

/-- Moving a record out of the archived list into the end of the active
list preserves partition disjointness, provided the moved record carries
the id being filtered out. -/
theorem disjoint_move_to_active {s : StoreState} {u : Todo} {i : Nat}
    (hd : PartitionsDisjoint s) (hu : u.id = i) :
    PartitionsDisjoint ⟨s.todos ++ [u], s.archivedTodos.filter fun x => x.id != i⟩ := by
  intro j hj
  rw [todoIds_mk] at hj
  rw [archivedIds_mk]
  simp only [List.map_append, List.mem_append, List.map_cons, List.map_nil,
    List.mem_singleton, List.mem_cons, List.not_mem_nil, or_false] at hj
  rcases hj with hj | hj
  · obtain ⟨x, hx, rfl⟩ := List.mem_map.mp hj
    intro hjA
    obtain ⟨y, hy, hyid⟩ := List.mem_map.mp hjA
    exact hd _ (List.mem_map_of_mem _ hx)
      (hyid ▸ List.mem_map_of_mem _ (List.mem_filter.mp hy).1)
  · subst hj
    rw [hu]
    exact id_not_mem_map_filter _ _

theorem applyOp_preserves_disjoint {s : StoreState} {op : RemoteVM.Op}
    (hd : PartitionsDisjoint s) (hok : RemoteVM.OpOK s op) :
    PartitionsDisjoint (RemoteVM.applyOp s op) := by
  cases op with
  | add text dueDate newId insertResult =>
    show PartitionsDisjoint (RemoteVM.addTodo s text dueDate newId insertResult).1
    obtain ⟨hfresh, hok2⟩ := hok
    unfold RemoteVM.addTodo TodoModel.create
    by_cases hval : text = "" ∨ jsTrim text = ""
    · simpa [hval] using hd
    · cases insertResult with
      | error msg =>
        simp only [if_neg hval]
        intro j hj
        rw [todoIds_mk] at hj
        simp only [List.map_append, List.mem_append, List.map_cons, List.map_nil,
          List.mem_singleton, List.mem_cons, List.not_mem_nil, or_false] at hj
        rcases hj with hj | hj
        · exact hd _ hj
        · subst hj; exact hfresh
      | ok saved =>
        simp only [if_neg hval]
        intro j hj
        rw [todoIds_mk] at hj
        simp only [List.map_map, List.map_append, List.mem_append, List.mem_map,
          Function.comp] at hj
        intro hjA
        rcases hj with ⟨x, hx, hxid⟩ | ⟨x, hx, hxid⟩
        · by_cases hxe : x = TodoModel.build newId text dueDate
          · rw [if_pos hxe] at hxid
            exact hok2 (hxid ▸ hjA)
          · rw [if_neg hxe] at hxid
            exact hd _ (hxid ▸ List.mem_map_of_mem _ hx) hjA
        · rw [List.mem_singleton] at hx
          subst hx
          rw [if_pos rfl] at hxid
          exact hok2 (hxid ▸ hjA)
  | toggle id ok =>
    show PartitionsDisjoint (RemoteVM.toggleComplete s id ok)
    unfold RemoteVM.toggleComplete
    cases h1 : s.todos.find? (fun t => t.id == id) with
    | some todo =>
      have hp := List.find?_some h1
      have hid : todo.id = id := by simpa using hp
      by_cases hcompl : todo.completed = true
      · simp only [Option.orElse, hcompl, Bool.not_true, if_neg]
        exact disjoint_move_to_active hd hid
      · have hcompl' : todo.completed = false := by
          cases hc2 : todo.completed
          · rfl
          · exact absurd hc2 hcompl
        simp only [Option.orElse, hcompl', Bool.not_false, if_pos]
        exact disjoint_move_to_archived hd hid
    | none =>
      cases h2 : s.archivedTodos.find? (fun t => t.id == id) with
      | none => exact hd
      | some todo =>
        have hp := List.find?_some h2
        have hid : todo.id = id := by simpa using hp
        by_cases hcompl : todo.completed = true
        · simp only [Option.orElse, hcompl, Bool.not_true, if_neg]
          exact disjoint_move_to_active hd hid
        · have hcompl' : todo.completed = false := by
            cases hc2 : todo.completed
            · rfl
            · exact absurd hc2 hcompl
          simp only [Option.orElse, hcompl', Bool.not_false, if_pos]
          exact disjoint_move_to_archived hd hid
  | edit id fields ok =>
    show PartitionsDisjoint (RemoteVM.editTodo s id fields ok)
    unfold RemoteVM.editTodo
    cases h1 : s.todos.find? (fun t => t.id == id) with
    | none => exact hd
    | some todo =>
      have hid : todo.id = id := by simpa using List.find?_some h1
      intro j hj
      obtain ⟨x, hx, hxid⟩ := List.mem_map.mp hj
      obtain ⟨y, hy, hyx⟩ := List.mem_map.mp hx
      by_cases hye : (y.id == id) = true
      · rw [if_pos hye] at hyx
        subst hyx
        have hj2 : j = y.id := by
          rw [← hxid]
          simp [mergeFields, hid, beq_iff_eq.mp hye]
        subst hj2
        exact hd _ (List.mem_map_of_mem _ hy)
      · rw [if_neg hye] at hyx
        subst hyx
        exact hd _ (hxid ▸ List.mem_map_of_mem _ hy)
  | del id ok =>
    show PartitionsDisjoint (RemoteVM.deleteTodo s id ok)
    intro j hj
    obtain ⟨x, hx, hxid⟩ := List.mem_map.mp hj
    exact hd _ (hxid ▸ List.mem_map_of_mem _ (List.mem_filter.mp hx).1)
  | archiveAll => exact hd
  | unarchive id ok =>
    show PartitionsDisjoint (RemoteVM.unarchiveTodo s id ok)
    unfold RemoteVM.unarchiveTodo
    cases h1 : s.archivedTodos.find? (fun t => t.id == id) with
    | none => exact hd
    | some todo =>
      have hid : todo.id = id := by simpa using List.find?_some h1
      exact disjoint_move_to_active hd hid
  | delArchived id ok =>
    show PartitionsDisjoint (RemoteVM.deleteArchivedTodo s id ok)
    intro j hj hjA
    obtain ⟨x, hx, hxid⟩ := List.mem_map.mp hjA
    exact hd _ hj (hxid ▸ List.mem_map_of_mem _ (List.mem_filter.mp hx).1)
  | load db owner fetchOk =>
    show PartitionsDisjoint (RemoteVM.loadTodos s db owner fetchOk)
    cases fetchOk with
    | false => exact hd
    | true =>
    have hnodup : ((RemoteVM.getAllTodos db owner).map Todo.id).Nodup := by
      unfold RemoteVM.getAllTodos
      rw [List.map_map]
      have hsub : ((db.filter fun r => r.userId == owner).map Row.id).Sublist
          (db.map Row.id) := (List.filter_sublist db).map Row.id
      exact hsub.nodup (hok rfl)
    intro j hj hjA
    obtain ⟨x, hx, hxid⟩ := List.mem_map.mp hj
    obtain ⟨y, hy, hyid⟩ := List.mem_map.mp hjA
    obtain ⟨hxf, hxc⟩ := List.mem_filter.mp hx
    obtain ⟨hyf, hyc⟩ := List.mem_filter.mp hy
    have hxy : x = y :=
      List.inj_on_of_nodup_map hnodup hxf hyf (by rw [hxid, hyid])
    subst hxy
    rw [hyc] at hxc
    cases hxc


/-- C3: starting from the empty store, any sequence of remote store
operations (with fresh generated/returned ids and primary-key-unique
fetches, as `OpOK` states) keeps the two partitions id-disjoint, and every
record resident in the store is in exactly one of the two partitions. -/
theorem reachable_states_partitioned (s : StoreState)
    (h : RemoteVM.Reachable s) :
    PartitionsDisjoint s ∧
      ∀ t ∈ s.todos ++ s.archivedTodos,
        (t.id ∈ s.todoIds ∧ t.id ∉ s.archivedIds) ∨
          (t.id ∈ s.archivedIds ∧ t.id ∉ s.todoIds) := by
  have hd : PartitionsDisjoint s := by
    induction h with
    | init => decide
    | step hr hok ih => exact applyOp_preserves_disjoint ih hok
  refine ⟨hd, fun t ht => ?_⟩
  rcases List.mem_append.mp ht with ht | ht
  · exact Or.inl ⟨List.mem_map_of_mem _ ht, hd _ (List.mem_map_of_mem _ ht)⟩
  · have hA : t.id ∈ s.archivedIds := List.mem_map_of_mem _ ht
    exact Or.inr ⟨hA, fun hT => hd _ hT hA⟩

/-- Witness for C3: a concrete two-operation run (add a record, then
toggle it into the archive) reaches a state whose partitions are
id-disjoint. -/
theorem reachable_states_partitioned_witness :
    RemoteVM.Reachable ⟨[], [⟨2, "buy milk", true, "2024-01-01"⟩]⟩ ∧
      PartitionsDisjoint ⟨[], [⟨2, "buy milk", true, "2024-01-01"⟩]⟩ := by
  have h1 : RemoteVM.OpOK ⟨[], []⟩ (.add "buy milk" (some "2024-01-01") 1
      (.ok ⟨2, "buy milk", false, "2024-01-01"⟩)) := ⟨by decide, by decide⟩
  have h2 : RemoteVM.OpOK ⟨[⟨2, "buy milk", false, "2024-01-01"⟩], []⟩
      (.toggle 2 true) := trivial
  have hr : RemoteVM.Reachable ⟨[], [⟨2, "buy milk", true, "2024-01-01"⟩]⟩ :=
    RemoteVM.Reachable.step (RemoteVM.Reachable.step RemoteVM.Reachable.init h1) h2
  exact ⟨hr, (reachable_states_partitioned _ hr).1⟩

end TodoApp

namespace TodoApp

/-- Counterexample to C1: starting from the empty store with a failing
gateway insert, `addTodo("buy milk", "2024-01-01")` leaves the
optimistically inserted record (id 7) present in the active partition
after the call resolves — the failed add is not a net no-op, contrary to
the claim that the record is absent. -/
theorem addTodo_insert_failure_not_rolled_back :
    (RemoteVM.addTodo ⟨[], []⟩ "buy milk" (some "2024-01-01") 7 (.error "db down")).1 =
      ⟨[⟨7, "buy milk", false, "2024-01-01"⟩], []⟩ ∧
      (7 : Nat) ∈ (RemoteVM.addTodo ⟨[], []⟩ "buy milk" (some "2024-01-01") 7
        (.error "db down")).1.todoIds :=
  ⟨rfl, by decide⟩

/-- C1 (amended): for every valid text, if the gateway insert call fails,
then after the add call resolves the optimistically inserted record
REMAINS at the end of the active partition, the archived partition is
unchanged, and the gateway error is reported; the catch block performs no
rollback. -/
theorem addTodo_insert_failure_keeps_optimistic (s : StoreState) (text : String)
    (dueDate : Option String) (newId : Nat) (msg : String)
    (h : ¬(text = "" ∨ jsTrim text = "")) :
    RemoteVM.addTodo s text dueDate newId (.error msg) =
      ({ s with todos := s.todos ++ [TodoModel.build newId text dueDate] },
        some msg) := by
  unfold RemoteVM.addTodo TodoModel.create
  rw [if_neg h]

/-- Witness for amended C1 at the counterexample input. -/
theorem addTodo_insert_failure_keeps_optimistic_witness :
    ¬("buy milk" = "" ∨ jsTrim "buy milk" = "") ∧
      RemoteVM.addTodo ⟨[], []⟩ "buy milk" (some "2024-01-01") 7 (.error "db down") =
        (⟨[⟨7, "buy milk", false, "2024-01-01"⟩], []⟩, some "db down") :=
  ⟨by decide, addTodo_insert_failure_keeps_optimistic ⟨[], []⟩ "buy milk"
    (some "2024-01-01") 7 "db down" (by decide)⟩

/-- Counterexample to C4: the archived record with id 3 is unarchived
while the gateway update fails (`updateOk = false`); the record is NOT put
back into the archived partition with its prior `completed` value — the
move is not reverted. -/
theorem unarchiveTodo_failure_not_reverted :
    RemoteVM.unarchiveTodo ⟨[], [⟨3, "old", true, ""⟩]⟩ 3 false =
      ⟨[⟨3, "old", false, ""⟩], []⟩ ∧
      (⟨3, "old", true, ""⟩ : Todo) ∉
        (RemoteVM.unarchiveTodo ⟨[], [⟨3, "old", true, ""⟩]⟩ 3 false).archivedTodos :=
  ⟨rfl, by decide⟩

/-- C4 (amended): for every record present in the archived partition
(whose ids are distinct), `unarchiveTodo(id)` removes it from the archived
partition and appends it to the active partition with `completed` forced
to `false`, regardless of whether the gateway update succeeds or fails —
on failure the move is NOT reverted. -/
theorem unarchiveTodo_moves_regardless_of_update (s : StoreState) (t : Todo)
    (ok : Bool) (hmem : t ∈ s.archivedTodos) (hnodup : s.archivedIds.Nodup) :
    RemoteVM.unarchiveTodo s t.id ok =
      ⟨s.todos ++ [{ t with completed := false }],
        s.archivedTodos.filter fun x => x.id != t.id⟩ := by
  unfold RemoteVM.unarchiveTodo
  rw [find?_id_of_mem hmem hnodup]

/-- Witness for amended C4 at the counterexample input (update failing). -/
theorem unarchiveTodo_moves_regardless_of_update_witness :
    (⟨3, "old", true, ""⟩ : Todo) ∈
        (⟨[], [⟨3, "old", true, ""⟩]⟩ : StoreState).archivedTodos ∧
      (⟨[], [⟨3, "old", true, ""⟩]⟩ : StoreState).archivedIds.Nodup ∧
      RemoteVM.unarchiveTodo ⟨[], [⟨3, "old", true, ""⟩]⟩ 3 false =
        ⟨[⟨3, "old", false, ""⟩], []⟩ :=
  ⟨by decide, by decide,
    unarchiveTodo_moves_regardless_of_update ⟨[], [⟨3, "old", true, ""⟩]⟩
      ⟨3, "old", true, ""⟩ false (by decide) (by decide)⟩

/-- C5: for every store state, local `archiveCompleted()` moves all and
only the completed active records into the archived partition, appended
after the existing archived records; afterwards the active partition
contains zero completed records, the incomplete records keep their order,
and no record is lost or duplicated (occurrence counts over the whole
store are conserved). -/
theorem archiveCompleted_spec (s : StoreState) :
    (∀ t ∈ (LocalVM.archiveCompleted s).todos, t.completed = false) ∧
    (LocalVM.archiveCompleted s).todos = s.todos.filter (fun t => !t.completed) ∧
    (LocalVM.archiveCompleted s).archivedTodos =
      s.archivedTodos ++ s.todos.filter (fun t => t.completed) ∧
    ∀ t : Todo,
      ((LocalVM.archiveCompleted s).todos ++
          (LocalVM.archiveCompleted s).archivedTodos).count t =
        (s.todos ++ s.archivedTodos).count t := by
  refine ⟨?_, rfl, rfl, ?_⟩
  · intro t ht
    have hp := (List.mem_filter.mp ht).2
    simpa using hp
  · intro t
    simp only [LocalVM.archiveCompleted, List.count_append]
    cases hc : t.completed
    · have h1 : (s.todos.filter fun x => !x.completed).count t = s.todos.count t :=
        List.count_filter (by simp [hc])
      have h2 : (s.todos.filter fun x => x.completed).count t = 0 :=
        List.count_eq_zero.mpr fun hmem => by
          have := (List.mem_filter.mp hmem).2
          rw [hc] at this
          cases this
      rw [h1, h2]
      omega
    · have h1 : (s.todos.filter fun x => !x.completed).count t = 0 :=
        List.count_eq_zero.mpr fun hmem => by
          have := (List.mem_filter.mp hmem).2
          rw [hc] at this
          simp at this
      have h2 : (s.todos.filter fun x => x.completed).count t = s.todos.count t :=
        List.count_filter (by simp [hc])
      rw [h1, h2]
      omega

/-- Witness for C5 at a concrete mixed store: the two completed active
records move to the end of the archive, the incomplete one stays. -/
theorem archiveCompleted_spec_witness :
    (LocalVM.archiveCompleted
        ⟨[⟨1, "a", true, ""⟩, ⟨2, "b", false, ""⟩, ⟨3, "c", true, ""⟩],
          [⟨4, "d", true, ""⟩]⟩).todos = [⟨2, "b", false, ""⟩] ∧
      (LocalVM.archiveCompleted
        ⟨[⟨1, "a", true, ""⟩, ⟨2, "b", false, ""⟩, ⟨3, "c", true, ""⟩],
          [⟨4, "d", true, ""⟩]⟩).archivedTodos =
        [⟨4, "d", true, ""⟩, ⟨1, "a", true, ""⟩, ⟨3, "c", true, ""⟩] :=
  ⟨(archiveCompleted_spec
      ⟨[⟨1, "a", true, ""⟩, ⟨2, "b", false, ""⟩, ⟨3, "c", true, ""⟩],
        [⟨4, "d", true, ""⟩]⟩).2.1,
    (archiveCompleted_spec
      ⟨[⟨1, "a", true, ""⟩, ⟨2, "b", false, ""⟩, ⟨3, "c", true, ""⟩],
        [⟨4, "d", true, ""⟩]⟩).2.2.1⟩

/-- C7: for every text that is empty or whitespace-only after trimming,
`addTodo` reports the validation error and leaves the state — both
partitions — exactly as it was; the result is the same for every gateway
outcome `res` (extensionally, no gateway call is made) and
`TodoModel.create` constructs no record. -/
theorem addTodo_validation_noop (s : StoreState) (text : String)
    (dueDate : Option String) (newId : Nat) (res : Except String Todo)
    (h : jsTrim text = "") :
    RemoteVM.addTodo s text dueDate newId res =
        (s, some "Todo text cannot be empty") ∧
      TodoModel.create newId text dueDate = .error "Todo text cannot be empty" := by
  have hcond : text = "" ∨ jsTrim text = "" := Or.inr h
  constructor
  · unfold RemoteVM.addTodo TodoModel.create
    rw [if_pos hcond]
  · unfold TodoModel.create
    rw [if_pos hcond]

/-- Witness for C7 at `""` and `"   "`. -/
theorem addTodo_validation_noop_witness :
    (jsTrim "" = "" ∧
      RemoteVM.addTodo ⟨[⟨1, "a", false, ""⟩], []⟩ "" none 5 (.ok ⟨9, "x", false, ""⟩) =
        (⟨[⟨1, "a", false, ""⟩], []⟩, some "Todo text cannot be empty")) ∧
    (jsTrim "   " = "" ∧
      RemoteVM.addTodo ⟨[⟨1, "a", false, ""⟩], []⟩ "   " none 5 (.error "x") =
        (⟨[⟨1, "a", false, ""⟩], []⟩, some "Todo text cannot be empty")) :=
  ⟨⟨rfl, (addTodo_validation_noop ⟨[⟨1, "a", false, ""⟩], []⟩ "" none 5
      (.ok ⟨9, "x", false, ""⟩) rfl).1⟩,
    ⟨by decide, (addTodo_validation_noop ⟨[⟨1, "a", false, ""⟩], []⟩ "   " none 5
      (.error "x") (by decide)).1⟩⟩

/-- C10: for every text whose trimmed form is non-empty,
`TodoModel.create` returns a record storing the text exactly as passed
(without trimming), with `completed = false`, and with `dueDate`
defaulting to the empty string when the argument is omitted (`none`). -/
theorem create_stores_text_verbatim (id : Nat) (text : String)
    (dueDate : Option String) (h : jsTrim text ≠ "") :
    TodoModel.create id text dueDate =
        .ok { id := id, text := text, completed := false, dueDate := dueDate.getD "" } ∧
      TodoModel.create id text none =
        .ok { id := id, text := text, completed := false, dueDate := "" } := by
  have hcond : ¬(text = "" ∨ jsTrim text = "") := by
    rintro (rfl | he)
    · exact h rfl
    · exact h he
  constructor
  · unfold TodoModel.create
    rw [if_neg hcond]
    rfl
  · unfold TodoModel.create
    rw [if_neg hcond]
    rfl

/-- Witness for C10 at a text with surrounding whitespace. -/
theorem create_stores_text_verbatim_witness :
    jsTrim "  hi  " ≠ "" ∧
      TodoModel.create 5 "  hi  " (some "2024-01-01") =
        .ok ⟨5, "  hi  ", false, "2024-01-01"⟩ ∧
      TodoModel.create 5 "  hi  " none = .ok ⟨5, "  hi  ", false, ""⟩ :=
  ⟨by decide,
    (create_stores_text_verbatim 5 "  hi  " (some "2024-01-01") (by decide)).1,
    (create_stores_text_verbatim 5 "  hi  " (some "2024-01-01") (by decide)).2⟩


/-- Counterexample to C8: ownerA's initialization succeeds and loads A's
record, then the fetch of ownerB's re-initialization throws; the catch
block only logs, neither setter runs, and ownerA's record (row id 1,
`user_id = "A"`) is still resident in the active partition of ownerB's
session — ownerA's records do remain, contrary to the claim. -/
theorem initialize_fetch_failure_leaks :
    RemoteVM.loadTodos
        (RemoteVM.loadTodos ⟨[], []⟩
          [Row.mk 1 "a" false "" "A", Row.mk 2 "b" true "" "B"] "A" true)
        [Row.mk 1 "a" false "" "A", Row.mk 2 "b" true "" "B"] "B" false =
      ⟨[⟨1, "a", false, ""⟩], []⟩ ∧
      (1 : Nat) ∈ (RemoteVM.loadTodos
        (RemoteVM.loadTodos ⟨[], []⟩
          [Row.mk 1 "a" false "" "A", Row.mk 2 "b" true "" "B"] "A" true)
        [Row.mk 1 "a" false "" "A", Row.mk 2 "b" true "" "B"] "B" false).todoIds :=
  ⟨rfl, by decide⟩

/-- C8 (amended): initializing the store for `ownerA` and then
re-initializing for a different `ownerB` yields exactly the state of a
fresh initialization for `ownerB` — every resident record maps from one of
ownerB's rows, and with primary-key-unique row ids no row id belonging to
ownerA appears in either partition — PROVIDED the fetch of the ownerB
re-initialization succeeds (for any outcome `okA` of the first fetch); if
the ownerB fetch fails, the catch only logs and the previously loaded
state remains in place. -/
theorem initialize_owner_isolation (s : StoreState) (db : List Row)
    (ownerA ownerB : String) (okA : Bool) (hne : ownerA ≠ ownerB)
    (hnodup : (db.map Row.id).Nodup) :
    (RemoteVM.loadTodos (RemoteVM.loadTodos s db ownerA okA) db ownerB true =
        RemoteVM.loadTodos s db ownerB true) ∧
    (∀ t ∈ (RemoteVM.loadTodos (RemoteVM.loadTodos s db ownerA okA) db ownerB
          true).todos ++
        (RemoteVM.loadTodos (RemoteVM.loadTodos s db ownerA okA) db ownerB
          true).archivedTodos,
      ∃ r ∈ db, r.userId = ownerB ∧ rowToTodo r = t) ∧
    (∀ r ∈ db, r.userId = ownerA →
      r.id ∉ (RemoteVM.loadTodos (RemoteVM.loadTodos s db ownerA okA) db
          ownerB true).todoIds ∧
        r.id ∉ (RemoteVM.loadTodos (RemoteVM.loadTodos s db ownerA okA) db
          ownerB true).archivedIds) := by
  have key : ∀ x ∈ RemoteVM.getAllTodos db ownerB,
      ∃ r ∈ db, r.userId = ownerB ∧ rowToTodo r = x := by
    intro x hx
    unfold RemoteVM.getAllTodos at hx
    obtain ⟨r, hr, rfl⟩ := List.mem_map.mp hx
    obtain ⟨hrdb, hrB⟩ := List.mem_filter.mp hr
    exact ⟨r, hrdb, beq_iff_eq.mp hrB, rfl⟩
  refine ⟨rfl, ?_, ?_⟩
  · intro t ht
    rcases List.mem_append.mp ht with ht | ht
    · exact key t (List.mem_filter.mp ht).1
    · exact key t (List.mem_filter.mp ht).1
  · intro r hr hA
    have main : ∀ x ∈ RemoteVM.getAllTodos db ownerB, x.id ≠ r.id := by
      intro x hx hid
      obtain ⟨r2, hr2, hB, rfl⟩ := key x hx
      have hr2r : r2 = r :=
        List.inj_on_of_nodup_map hnodup hr2 hr (by simpa [rowToTodo] using hid)
      subst hr2r
      rw [hA] at hB
      exact hne hB
    constructor
    · intro hmem
      obtain ⟨x, hx, hxid⟩ := List.mem_map.mp hmem
      exact main x (List.mem_filter.mp hx).1 hxid
    · intro hmem
      obtain ⟨x, hx, hxid⟩ := List.mem_map.mp hmem
      exact main x (List.mem_filter.mp hx).1 hxid

/-- Witness for amended C8 with a two-row table holding one record per
owner, the first fetch succeeding and the second fetch succeeding. -/
theorem initialize_owner_isolation_witness :
    ("A" : String) ≠ "B" ∧
      ([Row.mk 1 "a" false "" "A", Row.mk 2 "b" true "" "B"].map Row.id).Nodup ∧
      RemoteVM.loadTodos (RemoteVM.loadTodos ⟨[], []⟩
          [Row.mk 1 "a" false "" "A", Row.mk 2 "b" true "" "B"] "A" true)
        [Row.mk 1 "a" false "" "A", Row.mk 2 "b" true "" "B"] "B" true =
        RemoteVM.loadTodos ⟨[], []⟩
          [Row.mk 1 "a" false "" "A", Row.mk 2 "b" true "" "B"] "B" true ∧
      (1 : Nat) ∉ (RemoteVM.loadTodos (RemoteVM.loadTodos ⟨[], []⟩
          [Row.mk 1 "a" false "" "A", Row.mk 2 "b" true "" "B"] "A" true)
        [Row.mk 1 "a" false "" "A", Row.mk 2 "b" true "" "B"] "B" true).todoIds ∧
      (1 : Nat) ∉ (RemoteVM.loadTodos (RemoteVM.loadTodos ⟨[], []⟩
          [Row.mk 1 "a" false "" "A", Row.mk 2 "b" true "" "B"] "A" true)
        [Row.mk 1 "a" false "" "A", Row.mk 2 "b" true "" "B"] "B" true).archivedIds :=
  ⟨by decide, by decide,
    (initialize_owner_isolation ⟨[], []⟩
      [Row.mk 1 "a" false "" "A", Row.mk 2 "b" true "" "B"] "A" "B" true
      (by decide) (by decide)).1,
    ((initialize_owner_isolation ⟨[], []⟩
      [Row.mk 1 "a" false "" "A", Row.mk 2 "b" true "" "B"] "A" "B" true
      (by decide) (by decide)).2.2 (Row.mk 1 "a" false "" "A") (by decide) rfl).1,
    ((initialize_owner_isolation ⟨[], []⟩
      [Row.mk 1 "a" false "" "A", Row.mk 2 "b" true "" "B"] "A" "B" true
      (by decide) (by decide)).2.2 (Row.mk 1 "a" false "" "A") (by decide) rfl).2⟩

end TodoApp
